import Mathlib

/-!
Verification of the IRW Python package (itemresponsewarehouse/Python-pkg)
against its natural-language specification.

The file shallowly embeds the algorithmic core of the package:

* `MetadataCache` (both the `irw` and the `irw_py` variant of
  `utils/redivis/cache.py`),
* the numeric / variable filters of `irw_py/operations/filter.py`,
* the metadata merge of `operations/list_tables.py` (`_merge_metadata`),
* the per-table fetch fallback loop of `irw/operations/fetch.py`
  (`_fetch_one_table`) together with its seeded deduplication step,
* the long-to-wide converter `irw/utils/long2resp.py` (`long2resp`).

Machine floats are modelled as `ℚ` (the code only compares and averages
them); a pandas `NaN` / `None` cell is `Option.none`; a pandas DataFrame
is a list of typed rows.  Dictionaries are modelled as functions to
`Option`.
-/

namespace IRW

/-! ### MetadataCache

`src/irw/utils/redivis/cache.py` and `src/irw_py/utils/redivis/cache.py`
both define a `MetadataCache` with `_cache : Dict[str, Any]` and
`_versions : Dict[str, str]`, but their `get` methods differ.
Python dictionaries are modelled as functions `String → Option _`;
the truthiness test `if version:` is false for `None` and for `""`. -/

structure MetadataCache (α : Type) where
  cache : String → Option α
  versions : String → Option String

/-- The empty cache (`__init__`). -/
def MetadataCache.empty (α : Type) : MetadataCache α :=
  { cache := fun _ => none, versions := fun _ => none }

/-- `set(key, data, version)`: always stores the value; stores the version
tag only when `version` is truthy (`if version:`). Shared by both variants. -/
def MetadataCache.set (c : MetadataCache α) (key : String) (data : α)
    (version : Option String) : MetadataCache α :=
  { cache := fun k => if k = key then some data else c.cache k
    versions := match version with
      | some v => if v = "" then c.versions
          else fun k => if k = key then some v else c.versions k
      | none => c.versions }

/-- `get` of the `irw` variant: with `version is None` it returns the cached
value unconditionally; otherwise it requires `self._versions.get(key) == version`. -/
def MetadataCache.getIrw (c : MetadataCache α) (key : String)
    (version : Option String) : Option α :=
  match version with
  | none => c.cache key
  | some v => if c.versions key = some v then c.cache key else none

/-- `get` of the `irw_py` variant: `if version and self._versions.get(key) ==
version: return self._cache.get(key)`; in every other case it returns `None`.
A falsy `version` (`None` or `""`) therefore always misses. -/
def MetadataCache.getPy (c : MetadataCache α) (key : String)
    (version : Option String) : Option α :=
  match version with
  | some v => if v ≠ "" ∧ c.versions key = some v then c.cache key else none
  | none => none

/-! ### Numeric filters (`irw_py/operations/filter.py`, `_apply_numeric_filter`)

A listing is modelled, per numeric column, as a list of rows carrying the
table name and that column's (nullable) cell, plus a flag saying whether the
column is present in the frame at all (`column not in df.columns`).
The Python argument `Optional[Union[float, int, List[Optional[float]]]]`
becomes `NumFilterValue`. -/

structure NumRow where
  name : String
  cell : Option ℚ
deriving DecidableEq, Repr

inductive NumFilterValue where
  /-- Python `None`: no filter requested. -/
  | noFilter
  /-- a bare `int`/`float`: exact match. -/
  | scalar (q : ℚ)
  /-- a Python list; `None` entries stand for missing bounds. -/
  | ofList (l : List (Option ℚ))
deriving DecidableEq, Repr

/-- `_apply_numeric_filter(df, column, value)`.

* `value is None` or `column not in df.columns` → the frame is returned
  unchanged;
* scalar → `df[column] == value` (a `NaN` cell compares false);
* one-element list → equality with the element (`df[column] == value[0]`,
  false everywhere when the element is `None`);
* two-element list → inclusive range, a `None` bound meaning `-inf` / `+inf`
  (a `NaN` cell fails both comparisons);
* any other list shape → the frame is returned unchanged. -/
def applyNumericFilter (colPresent : Bool) (value : NumFilterValue)
    (rows : List NumRow) : List NumRow :=
  match value, colPresent with
  | .noFilter, _ => rows
  | _, false => rows
  | .scalar q, true => rows.filter (fun r => r.cell = some q)
  | .ofList l, true =>
    match l with
    | [v] => rows.filter (fun r =>
        match r.cell, v with
        | some x, some q => x = q
        | _, _ => false)
    | [a, b] => rows.filter (fun r =>
        match r.cell with
        | none => false
        | some x =>
          (match a with | none => true | some m => decide (m ≤ x)) &&
          (match b with | none => true | some m => decide (x ≤ m)))
    | _ => rows

/-- The filter-value shapes that actually restrict rows (a scalar, a
one-element list or a two-element range); every other shape makes
`_apply_numeric_filter` return its input unchanged. -/
def NumFilterValue.active : NumFilterValue → Prop
  | .noFilter => False
  | .scalar _ => True
  | .ofList l => l.length = 1 ∨ l.length = 2

/-! ### Variable-presence filter (`_apply_variable_filter`)

The `variables` cell of a row is a nullable pipe-delimited string
(`"var1|var2|var3"`); the embedding types the column that way, so the
`list`/`tuple` dtype branches of the Python code do not arise. -/

structure VarRow where
  name : String
  /-- the row's `variables` cell (the word `variables` itself is reserved in Lean). -/
  varCell : Option String
deriving DecidableEq, Repr

/-- Tokenisation of a `variables` cell:
`[v.strip().lower() for v in re.split(r'\|\s*', row_vars) if v.strip()]`.
Splitting on `|` and trimming each piece yields the same tokens as the
regex split (which merely consumes post-pipe whitespace early). -/
def parseVars (s : String) : List String :=
  ((s.splitOn "|").map (fun t => t.trim.toLower)).filter (fun t => t ≠ "")

/-- Does one filter token match the tokenised `variables` cell?
A token containing `'_'` matches as a stem: trailing underscores are
stripped (`rstrip('_')`) and any cell token may start with the stem
(`v.startswith(var_prefix)`); otherwise an exact token match is required. -/
def tokenMatches (varList : List String) (tok : String) : Bool :=
  let v := tok.toLower
  if v.contains '_' then
    let stem := v.dropRightWhile (fun c => c = '_')
    varList.any (fun w => stem.isPrefixOf w)
  else
    varList.contains v

/-- `_apply_variable_filter(df, variables)`: skipped when `variables is None`
or the `variables` column is absent; otherwise a row passes iff its cell is
non-null and **all** filter tokens match (AND semantics). -/
def applyVariableFilter (colPresent : Bool) (varArg : Option (List String))
    (rows : List VarRow) : List VarRow :=
  match varArg, colPresent with
  | none, _ => rows
  | _, false => rows
  | some toks, true => rows.filter (fun r =>
      match r.varCell with
      | none => false
      | some s => toks.all (tokenMatches (parseVars s)))

/-! ### Metadata merge (`operations/list_tables.py`, `_merge_metadata`)

`_merge_metadata` (identical join logic in `irw` and `irw_py`) left-joins
the metadata frame onto the base name list on lower-cased names, then
drops duplicate `name` rows keeping the first.  The metadata columns other
than the join key are abstracted into a payload type `α`; a listing row's
`meta = none` models "every stat/tag/bib cell of this row is null".
The model follows the cache-miss path (`metadata_cache.get` returned
`None`); when `_table_info()` is empty the base frame is returned as is
(its rows then have no metadata cells at all, i.e. all null). -/

structure MetaRow (α : Type) where
  table : String
  payload : α
deriving DecidableEq, Repr

structure ListingRow (α : Type) where
  name : String
  meta : Option α
deriving DecidableEq, Repr

/-- `drop_duplicates(subset=['name'])`: keep the first row for each name. -/
def dropDupNames {α : Type} : List String → List (ListingRow α) → List (ListingRow α)
  | _, [] => []
  | seen, r :: rs =>
    if r.name ∈ seen then dropDupNames seen rs
    else r :: dropDupNames (r.name :: seen) rs

/-- One base name's contribution to the left join `base.merge(metadata,
left_on='name_lower', right_on='name_lower', how='left')`: the matching
metadata rows, or a single all-null row when there is no match. -/
def joinRows {α : Type} (metadata : List (MetaRow α)) (n : String) :
    List (ListingRow α) :=
  let ms := metadata.filter (fun m => m.table.toLower = n.toLower)
  if ms.isEmpty then [⟨n, none⟩] else ms.map (fun m => ⟨n, some m.payload⟩)

/-- `_merge_metadata(base, datasets)` on a cache miss. -/
def mergeMetadata {α : Type} (base : List String) (metadata : List (MetaRow α)) :
    List (ListingRow α) :=
  if metadata.isEmpty then base.map (fun n => ⟨n, none⟩)
  else dropDupNames [] (base.flatMap (joinRows metadata))

/-! ### Fetch fallback (`irw/operations/fetch.py`, `_fetch_one_table`)

The loop body's outcome per backing source is either a dataframe or an
exception whose `_classify_error` kind is one of `invalid_request`,
`not_found`, `transient`, `unknown`.  The function's observable outcomes
(return value plus logged classification) are: the fetched data;
"cannot be fetched / invalid format" (immediate `None`); "does not exist"
(`None` after exhausting all sources with no error or a `not_found` last
error); "error fetching" (`None` after exhausting sources with another
last error).  The dataframe payload is abstract: the claim under test is
purely about the fallback control flow. -/

inductive ErrorKind where
  | invalidRequest
  | notFound
  | transient
  | unknown
deriving DecidableEq, Repr

inductive SourceOutcome (α : Type) where
  /-- `tbl.to_pandas_dataframe()` succeeded for this source. -/
  | ok (df : α)
  /-- the source raised an error of the given classified kind. -/
  | err (k : ErrorKind)
deriving DecidableEq, Repr

inductive FetchOutcome (α : Type) where
  /-- the dataframe is returned to the caller. -/
  | fetched (df : α)
  /-- `invalid_request`: warn "cannot be fetched" and return `None` at once. -/
  | notFetchable
  /-- all sources exhausted, last error absent or `not_found`: warn
  "does not exist" and return `None`. -/
  | notFound
  /-- all sources exhausted with a different last error: log it, return `None`. -/
  | fetchError (k : ErrorKind)
deriving DecidableEq, Repr

/-- The `for ds in datasets` loop with the `last_err` accumulator. -/
def fetchOneAux {α : Type} : List (SourceOutcome α) → Option ErrorKind →
    FetchOutcome α
  | [], none => .notFound
  | [], some k => if k = .notFound then .notFound else .fetchError k
  | .ok d :: _, _ => .fetched d
  | .err k :: rest, _ =>
    if k = .invalidRequest then .notFetchable else fetchOneAux rest (some k)

/-- `_fetch_one_table` restricted to its source-fallback policy. -/
def fetchOne {α : Type} (sources : List (SourceOutcome α)) : FetchOutcome α :=
  fetchOneAux sources none

/-! ### Seeded deduplication (`_fetch_one_table`, `dedup=True` branch)

For a frame with `id` and `item` columns (and no `date` / `wave` column)
the code builds `groups = df.groupby(["id","item"], dropna=False).indices`,
draws `rng.choice(ix)` from a `np.random.RandomState(42)` for each group,
and keeps `df.loc[sorted(chosen_idx)]`.  The generator is modelled as the
pure draw stream `rand : ℕ → ℕ` of the fixed seed 42 (the k-th draw picks
`rand k mod`-the-group-size); because the seed is the literal 42 created
inside the call, the same stream is used by every run. -/

structure FetchRow where
  id : ℕ
  item : String
  resp : Option ℚ
deriving DecidableEq, Repr

/-- The group keys: one per distinct `(id, item)` pair, in a fixed
deterministic order (standing in for the dict order of
`groupby(...).indices`, which is likewise a function of the frame alone). -/
def dedupKeys (rows : List FetchRow) : List (ℕ × String) :=
  (rows.map (fun r => (r.id, r.item))).dedup

/-- The positional indices of one group's rows. -/
def groupIndices (rows : List FetchRow) (k : ℕ × String) : List ℕ :=
  (List.range rows.length).filter (fun i =>
    match rows.get? i with
    | some r => (r.id, r.item) = k
    | none => false)

/-- The retained row indices: one randomly chosen index per group, then
sorted ascending (`df.loc[sorted(chosen_idx)]`). -/
def dedupIndices (rand : ℕ → ℕ) (rows : List FetchRow) : List ℕ :=
  let chosen := (dedupKeys rows).enum.map (fun p =>
    let ix := groupIndices rows p.2
    ix.getD (rand p.1 % ix.length) 0)
  (List.range rows.length).filter (fun i => chosen.contains i)

/-- The deduplicated frame. -/
def dedupStep (rand : ℕ → ℕ) (rows : List FetchRow) : List FetchRow :=
  (dedupIndices rand rows).filterMap (fun i => rows.get? i)

/-! ### long2resp (`irw/utils/long2resp.py`)

The converter is embedded for input tables whose columns are exactly
`id`, `item`, `resp` — the shape the verified claims quantify over.  For
such frames the source's steps 1–5 are inert: the required columns exist
by construction, there is no `date` column to reject, no `rater` column
to report on, no extra columns to drop and no `wave` column to filter on.
The `resp` column is typed as it stands after
`pd.to_numeric(df["resp"], errors="coerce")`: a rational or missing
(`none` covers both an originally missing and a non-coercible value). -/

structure LongRow where
  id : ℕ
  item : String
  resp : Option ℚ
deriving DecidableEq, Repr

/-- `x if str(x).startswith("item_") else f"item_{x}"`. -/
def prefixItem (x : String) : String :=
  if "item_".isPrefixOf x then x else "item_" ++ x

/-- `df["item"] = df["item"].apply(...)`. -/
def withPrefixedItems (df : List LongRow) : List LongRow :=
  df.map (fun r => { r with item := prefixItem r.item })

/-- `total_items = df["item"].nunique()`. -/
def totalItems (df : List LongRow) : ℕ :=
  ((df.map (fun r => r.item)).dedup).length

/-- One id's non-missing response count:
`df.groupby("id")["resp"].apply(lambda x: (~x.isna()).sum())`.
This counts non-missing **rows**, not distinct items. -/
def respRowCount (df : List LongRow) (i : ℕ) : ℕ :=
  (df.filter (fun r => r.id = i ∧ r.resp.isSome)).length

/-- `id_resp_counts["density"] = response_count / total_items`. -/
def codeDensity (df : List LongRow) (i : ℕ) : ℚ :=
  (respRowCount df i : ℚ) / (totalItems df : ℚ)

/-- The sparse-id filter: `ids_to_keep` are the ids with
`density >= id_density_threshold` (inclusive); rows of other ids are
dropped (`df[df["id"].isin(ids_to_keep)]`).  `None` disables the step. -/
def densityFilter (thr : Option ℚ) (df : List LongRow) : List LongRow :=
  match thr with
  | none => df
  | some t => df.filter (fun r => decide (t ≤ codeDensity df r.id))

/-- The responses of one `(id, item)` group, in row order. -/
def groupResps (df : List LongRow) (i : ℕ) (it : String) : List (Option ℚ) :=
  (df.filter (fun r => r.id = i ∧ r.item = it)).map (fun r => r.resp)

/-- `GroupBy.mean`: mean of the non-missing values, `NaN` when all missing. -/
def aggMean (xs : List (Option ℚ)) : Option ℚ :=
  let v := xs.filterMap id
  if v.isEmpty then none else some (v.sum / (v.length : ℚ))

/-- Insertion into a sorted list of rationals. -/
def insertRat (x : ℚ) : List ℚ → List ℚ
  | [] => [x]
  | y :: ys => if x ≤ y then x :: y :: ys else y :: insertRat x ys

/-- Ascending sort, for the median. -/
def sortRats (v : List ℚ) : List ℚ :=
  v.foldr insertRat []

/-- `GroupBy.median`: middle of the sorted non-missing values (mean of the
two middles for an even count), `NaN` when all missing. -/
def aggMedian (xs : List (Option ℚ)) : Option ℚ :=
  let v := sortRats (xs.filterMap id)
  let n := v.length
  if n = 0 then none
  else if n % 2 = 1 then some (v.getD (n / 2) 0)
  else some ((v.getD (n / 2 - 1) 0 + v.getD (n / 2) 0) / 2)

/-- `mode_fn`: drop missing values, return the most frequent value, ties
broken in favour of the earlier value; `NaN` for an all-missing group. -/
def aggMode (xs : List (Option ℚ)) : Option ℚ :=
  let v := xs.filterMap id
  v.dedup.foldl (fun best c =>
    match best with
    | none => some c
    | some b => if v.count b < v.count c then some c else some b) none

/-- The wide cell for one `(id, item)` group under the chosen strategy.
For `"first"` the group's first row survives `drop_duplicates(...,
keep="first")`, so the cell is its (possibly missing) response; a pair
absent from the frame yields an empty group and hence a missing cell. -/
def aggregateCell (aggMethod : String) (xs : List (Option ℚ)) : Option ℚ :=
  if aggMethod = "mode" then aggMode xs
  else if aggMethod = "mean" then aggMean xs
  else if aggMethod = "median" then aggMedian xs
  else if aggMethod = "first" then xs.headD none
  else none

/-- `['i','t','e','m','_']`, the tag removed from output column names. -/
def itemTag : List Char := "item_".data

/-- Python's `col.replace("item_", "")`: scan left to right, removing each
non-overlapping occurrence and resuming the scan after it. -/
def removeItemTag : List Char → List Char
  | [] => []
  | c :: cs =>
    if itemTag.isPrefixOf (c :: cs) then removeItemTag (cs.drop 4)
    else c :: removeItemTag cs
termination_by l => l.length
decreasing_by
  all_goals simp only [List.length_drop, List.length_cons]
  all_goals omega

/-- `col.replace("item_", "") if col != "id" else col`. -/
def renameColumn (col : String) : String :=
  if col = "id" then col else ⟨removeItemTag col.data⟩

/-- The wide frame's item columns before renaming: the distinct surviving
(prefixed) item values.  (`DataFrame.pivot` sorts its column axis; the
spec fixes no column order, and the embedding uses a deterministic
occurrence-based order instead.) -/
def outputItemCols (df : List LongRow) (thr : Option ℚ) : List String :=
  (((densityFilter thr (withPrefixedItems df)).map (fun r => r.item))).dedup

/-- The wide row index: the distinct surviving ids (same remark on order). -/
def outputIds (df : List LongRow) (thr : Option ℚ) : List ℕ :=
  (((densityFilter thr (withPrefixedItems df)).map (fun r => r.id))).dedup

/-- The pivoted matrix: `ids` indexes the rows, `itemCols` the columns (as
pivoted), `cols` the columns after `"item_"` removal, and `cells` holds one
aggregated (or missing) response per `(id, item)` position. -/
structure WideMatrix where
  ids : List ℕ
  itemCols : List String
  cols : List String
  cells : List (List (Option ℚ))
deriving DecidableEq, Repr

/-- `long2resp(df, wave=None, id_density_threshold, agg_method)` for an
`id`/`item`/`resp` frame: prefix the items, drop sparse ids, aggregate
duplicate `(id, item)` groups with the chosen strategy (an unknown
strategy raises `ValueError`), pivot, and strip the `"item_"` tag from the
column names. -/
def long2resp (df : List LongRow) (idDensityThreshold : Option ℚ)
    (aggMethod : String) : Except String WideMatrix :=
  if aggMethod = "mode" ∨ aggMethod = "mean" ∨ aggMethod = "median" ∨
      aggMethod = "first" then
    Except.ok
      { ids := outputIds df idDensityThreshold
        itemCols := outputItemCols df idDensityThreshold
        cols := (outputItemCols df idDensityThreshold).map renameColumn
        cells := (outputIds df idDensityThreshold).map (fun i =>
          (outputItemCols df idDensityThreshold).map (fun it =>
            aggregateCell aggMethod (groupResps
              (densityFilter idDensityThreshold (withPrefixedItems df))
              i it))) }
  else
    Except.error
      "Invalid `agg_method`. Choose from 'mode', 'mean', 'median', or 'first'."

/-- The number of non-missing cells of a wide matrix. -/
def nonMissingCount (w : WideMatrix) : ℕ :=
  (w.cells.map (fun row => row.countP (fun c => c.isSome))).sum

/-- Modelled from the spec (§4.4 step 8 as the claim reads it, for the
refinement comparison only): an id's density as "the fraction of distinct
items for which that id has a non-missing response, computed against the
total number of distinct items across the whole table". -/
def specDensity (df : List LongRow) (i : ℕ) : ℚ :=
  ((((df.filter (fun r => r.id = i ∧ r.resp.isSome)).map
      (fun r => r.item)).dedup).length : ℚ) / (totalItems df : ℚ)

/-! ## Theorems -/

/-! ### C2 — MetadataCache versioning -/

/-- Claim C2, counterexample: in the `irw_py` variant of `MetadataCache`
(`src/irw_py/utils/redivis/cache.py`), after `set("k", 1, version="a")`
an unversioned `get("k")` does **not** return the cached value — the falsy
`version` makes `get` return `None` unconditionally, contradicting the
claimed "unconditional hit on any cached value for the key". -/
theorem c2_unversioned_get_miss :
    MetadataCache.getPy ((MetadataCache.empty ℕ).set "k" 1 (some "a"))
      "k" none ≠ some 1 := by
  simp [MetadataCache.getPy]

/-- Claim C2, amended: after `set(key, v1, version=a)` (with a non-empty
tag `a`), a `get` with a different tag `b` misses and a `get` with tag `a`
returns `v1` in **both** cache variants; a `get` without a version is an
unconditional hit returning `v1` in the `irw` variant but an unconditional
miss in the `irw_py` variant. -/
theorem c2_cache_versioning {α : Type} (v1 : α) (key a b : String)
    (hab : a ≠ b) (ha : a ≠ "") :
    MetadataCache.getIrw ((MetadataCache.empty α).set key v1 (some a))
        key (some b) = none ∧
    MetadataCache.getIrw ((MetadataCache.empty α).set key v1 (some a))
        key (some a) = some v1 ∧
    MetadataCache.getIrw ((MetadataCache.empty α).set key v1 (some a))
        key none = some v1 ∧
    MetadataCache.getPy ((MetadataCache.empty α).set key v1 (some a))
        key (some b) = none ∧
    MetadataCache.getPy ((MetadataCache.empty α).set key v1 (some a))
        key (some a) = some v1 ∧
    MetadataCache.getPy ((MetadataCache.empty α).set key v1 (some a))
        key none = none := by
  simp [MetadataCache.set, MetadataCache.getIrw, MetadataCache.getPy,
    MetadataCache.empty, ha, hab, Ne.symm hab]

/-- Witness for `c2_cache_versioning` at `key = "k"`, `v1 = 1`,
`a = "a"`, `b = "b"`. -/
theorem c2_cache_versioning_witness :
    MetadataCache.getIrw ((MetadataCache.empty ℕ).set "k" 1 (some "a"))
        "k" (some "b") = none ∧
    MetadataCache.getIrw ((MetadataCache.empty ℕ).set "k" 1 (some "a"))
        "k" (some "a") = some 1 ∧
    MetadataCache.getIrw ((MetadataCache.empty ℕ).set "k" 1 (some "a"))
        "k" none = some 1 ∧
    MetadataCache.getPy ((MetadataCache.empty ℕ).set "k" 1 (some "a"))
        "k" (some "b") = none ∧
    MetadataCache.getPy ((MetadataCache.empty ℕ).set "k" 1 (some "a"))
        "k" (some "a") = some 1 ∧
    MetadataCache.getPy ((MetadataCache.empty ℕ).set "k" 1 (some "a"))
        "k" none = none :=
  c2_cache_versioning 1 "k" "a" "b" (by decide) (by decide)

/-! ### C1 — numeric filters on absent columns and null cells -/

/-- Claim C1, counterexample: when the filtered column is **absent** from
the listing, `_apply_numeric_filter` returns the frame unchanged
(`column not in df.columns → return df`), so the row still appears in the
filter result — the claim says it is excluded. -/
theorem c1_absent_column_row_kept :
    (⟨"t", none⟩ : NumRow) ∈
      applyNumericFilter false (.scalar 0) [⟨"t", none⟩] := by
  simp [applyNumericFilter]

/-- Claim C1, amended: when the filtered column is present and the filter
value has an active shape (scalar, one-element list or two-element range),
a row whose cell in that column is null never appears in the filter
result; when the column is absent from the listing the filter is skipped
entirely and every row passes. -/
theorem c1_null_cells_excluded (rows : List NumRow) (value : NumFilterValue)
    (r : NumRow) (hact : value.active) (hnull : r.cell = none) :
    r ∉ applyNumericFilter true value rows ∧
    ∀ (rows₂ : List NumRow) (v₂ : NumFilterValue),
      applyNumericFilter false v₂ rows₂ = rows₂ := by
  refine ⟨?_, fun rows₂ v₂ => by cases v₂ <;> rfl⟩
  cases value with
  | noFilter => exact absurd hact (by simp [NumFilterValue.active])
  | scalar q =>
    intro hmem
    have h := (List.mem_filter.mp hmem).2
    simp [hnull] at h
  | ofList l =>
    rcases l with _ | ⟨v, _ | ⟨b, _ | ⟨c, t⟩⟩⟩
    · simp [NumFilterValue.active] at hact
    · intro hmem
      have h := (List.mem_filter.mp hmem).2
      simp [hnull] at h
    · intro hmem
      have h := (List.mem_filter.mp hmem).2
      simp [hnull] at h
    · simp [NumFilterValue.active] at hact

/-- Witness for `c1_null_cells_excluded` on a one-row listing with a null
cell and the exact-match filter `n_items = 7`. -/
theorem c1_null_cells_excluded_witness :
    (⟨"t", none⟩ : NumRow) ∉
      applyNumericFilter true (.scalar 7) [⟨"t", none⟩] ∧
    ∀ (rows₂ : List NumRow) (v₂ : NumFilterValue),
      applyNumericFilter false v₂ rows₂ = rows₂ :=
  c1_null_cells_excluded [⟨"t", none⟩] (.scalar 7) ⟨"t", none⟩
    trivial rfl

/-! ### C6 — the `[null, null]` range -/

/-- Claim C6: on a listing that has the filtered column, the range
`[None, None]` keeps exactly the rows whose cell in that column is
non-null — i.e. it is the identity on non-null rows, equivalent to
applying no filter and then discarding null-celled rows. -/
theorem c6_null_null_range_keeps_nonnull (rows : List NumRow) :
    applyNumericFilter true (.ofList [none, none]) rows =
      rows.filter (fun r => r.cell.isSome) := by
  simp only [applyNumericFilter]
  exact List.filter_congr (fun r _ => by cases h : r.cell <;> simp [h])

/-! ### C3 — AND-monotonicity of the `var` filter -/

/-- Claim C3: the `var` filter has AND semantics, so appending one more
token to the filter list never adds a table to the match set: every row
surviving the longer filter survives the shorter one (in particular the
matches of `var=["wave","cov_"]` are contained in those of
`var=["wave"]`). -/
theorem c3_var_and_monotone (cp : Bool) (toks : List String) (t : String)
    (rows : List VarRow) (r : VarRow)
    (h : r ∈ applyVariableFilter cp (some (toks ++ [t])) rows) :
    r ∈ applyVariableFilter cp (some toks) rows := by
  cases cp with
  | false => simpa [applyVariableFilter] using h
  | true =>
    simp only [applyVariableFilter] at h ⊢
    rcases List.mem_filter.mp h with ⟨hr, hp⟩
    refine List.mem_filter.mpr ⟨hr, ?_⟩
    cases hv : r.varCell with
    | none => simp [hv] at hp
    | some s =>
      simp only [hv, List.all_append, Bool.and_eq_true] at hp ⊢
      exact hp.1

/-- Witness for `c3_var_and_monotone`: the table with variables
`"wave|cov_age"` matches `var=["wave","cov_"]`, hence also
`var=["wave"]`. -/
theorem c3_var_and_monotone_witness :
    (⟨"t", some "wave|cov_age"⟩ : VarRow) ∈
      applyVariableFilter true (some ["wave"])
        [⟨"t", some "wave|cov_age"⟩] :=
  c3_var_and_monotone true ["wave"] "cov_"
    [⟨"t", some "wave|cov_age"⟩] ⟨"t", some "wave|cov_age"⟩
    (by with_unfolding_all decide)

/-! ### C8 — fetch fallback policy -/

/-- Claim C8: over the ordered source list `[S1, S2]`, if S1 fails with a
`not_found`-classified error and S2 succeeds, `_fetch_one_table` returns
S2's data (no error reaches the caller); if S1 fails with an
`invalid_request`-classified error, the call immediately yields the
"not fetchable" outcome — whatever the remaining sources would do, they
are never consulted. -/
theorem c8_fallback_policy {α : Type} (d : α)
    (rest : List (SourceOutcome α)) :
    fetchOne [.err .notFound, .ok d] = .fetched d ∧
    fetchOne (.err .invalidRequest :: rest) = .notFetchable :=
  ⟨rfl, rfl⟩

/-! ### C9 — deterministic seeded deduplication -/

/-- Claim C9: the dedup step draws from a generator seeded with the fixed
literal 42 created inside the call, so it is a pure function of the frame:
two runs over identical rows in identical order retain exactly the same
row indices and return identical output. -/
theorem c9_dedup_deterministic (rand : ℕ → ℕ) (rows₁ rows₂ : List FetchRow)
    (h : rows₁ = rows₂) :
    dedupIndices rand rows₁ = dedupIndices rand rows₂ ∧
    dedupStep rand rows₁ = dedupStep rand rows₂ := by
  subst h; exact ⟨rfl, rfl⟩

/-! ### C4 — density filtering in long2resp -/

/-- Inversion for a successful `long2resp` call: the aggregation method is
one of the four strategies and the wide matrix is the pivoted frame. -/
theorem long2resp_ok_fields (df : List LongRow) (thr : Option ℚ)
    (agg : String) (w : WideMatrix)
    (hok : long2resp df thr agg = Except.ok w) :
    (agg = "mode" ∨ agg = "mean" ∨ agg = "median" ∨ agg = "first") ∧
    w = { ids := outputIds df thr
          itemCols := outputItemCols df thr
          cols := (outputItemCols df thr).map renameColumn
          cells := (outputIds df thr).map (fun i =>
            (outputItemCols df thr).map (fun it =>
              aggregateCell agg (groupResps
                (densityFilter thr (withPrefixedItems df)) i it))) } := by
  rw [long2resp] at hok
  split at hok
  · next hvalid => exact ⟨hvalid, ((Except.ok.injEq _ _).mp hok).symm⟩
  · exact Except.noConfusion hok

/-- Claim C4, counterexample: the claim's density formula — the number of
**distinct items** answered by the id over the total item count — is not
what the code computes.  On the frame
`[(1,A,5), (1,A,6), (2,B,1), (2,C,1), (2,D,1), (2,A,1)]` id 1 answers one
distinct item out of four, a claimed density of `1/4 < 0.3`, so under the
claim `id_density_threshold = 0.3` must drop id 1; the code counts the two
non-missing response rows (density `2/4 = 0.5`) and keeps id 1 in the wide
output. -/
theorem c4_distinct_item_density_refuted :
    specDensity
        [⟨1, "A", some 5⟩, ⟨1, "A", some 6⟩, ⟨2, "B", some 1⟩,
          ⟨2, "C", some 1⟩, ⟨2, "D", some 1⟩, ⟨2, "A", some 1⟩] 1 <
      3 / 10 ∧
    ∃ w, long2resp
        [⟨1, "A", some 5⟩, ⟨1, "A", some 6⟩, ⟨2, "B", some 1⟩,
          ⟨2, "C", some 1⟩, ⟨2, "D", some 1⟩, ⟨2, "A", some 1⟩]
        (some (3 / 10)) "mean" = Except.ok w ∧ 1 ∈ w.ids :=
  ⟨by with_unfolding_all decide, _, rfl, by with_unfolding_all decide⟩

/-- Claim C4, amended: an id's density is its number of **non-missing
response rows** divided by the total number of distinct items across the
whole table (the two notions agree when the id has no duplicate rows), and
the threshold comparison is inclusive: a surviving wide row exists for id
`i` exactly when some row carries `i` and `thr ≤ density(i)`. -/
theorem c4_density_row_counts (df : List LongRow) (thr : ℚ) (agg : String)
    (w : WideMatrix) (hok : long2resp df (some thr) agg = Except.ok w)
    (i : ℕ) :
    i ∈ w.ids ↔ (∃ r ∈ withPrefixedItems df, r.id = i) ∧
      thr ≤ codeDensity (withPrefixedItems df) i := by
  obtain ⟨-, rfl⟩ := long2resp_ok_fields df (some thr) agg w hok
  show i ∈ outputIds df (some thr) ↔ _
  rw [outputIds]
  simp only [densityFilter]
  rw [List.mem_dedup]
  constructor
  · intro h
    rcases List.mem_map.mp h with ⟨r, hr, rfl⟩
    rcases List.mem_filter.mp hr with ⟨hrP, hd⟩
    exact ⟨⟨r, hrP, rfl⟩, of_decide_eq_true hd⟩
  · rintro ⟨⟨r, hrP, rfl⟩, hd⟩
    exact List.mem_map.mpr
      ⟨r, List.mem_filter.mpr ⟨hrP, decide_eq_true hd⟩, rfl⟩

/-- Witness for `c4_density_row_counts` at the claim's own scenario: four
distinct items, id 1 with exactly one non-missing response (density
`1/4`); `id_density_threshold = 0.25` keeps id 1 (inclusive boundary) and
`0.3` drops it. -/
theorem c4_density_row_counts_witness :
    (∃ w, long2resp
        [⟨1, "A", some 1⟩, ⟨2, "A", some 1⟩, ⟨2, "B", some 1⟩,
          ⟨2, "C", some 1⟩, ⟨2, "D", some 1⟩]
        (some (1 / 4)) "mean" = Except.ok w ∧ 1 ∈ w.ids) ∧
    (∃ w, long2resp
        [⟨1, "A", some 1⟩, ⟨2, "A", some 1⟩, ⟨2, "B", some 1⟩,
          ⟨2, "C", some 1⟩, ⟨2, "D", some 1⟩]
        (some (3 / 10)) "mean" = Except.ok w ∧ 1 ∉ w.ids) := by
  constructor
  · exact ⟨_, rfl,
      (c4_density_row_counts
        [⟨1, "A", some 1⟩, ⟨2, "A", some 1⟩, ⟨2, "B", some 1⟩,
          ⟨2, "C", some 1⟩, ⟨2, "D", some 1⟩]
        (1 / 4) "mean" _ rfl 1).mpr (by with_unfolding_all decide)⟩
  · refine ⟨_, rfl, fun hmem => ?_⟩
    have h := (c4_density_row_counts
        [⟨1, "A", some 1⟩, ⟨2, "A", some 1⟩, ⟨2, "B", some 1⟩,
          ⟨2, "C", some 1⟩, ⟨2, "D", some 1⟩]
        (3 / 10) "mean" _ rfl 1).mp hmem
    revert h
    with_unfolding_all decide

/-! ### C10 — `"item_"` removal in output column names -/

/-- Removing tag occurrences never lengthens a string. -/
theorem removeItemTag_length_le :
    ∀ (n : ℕ) (s : List Char), s.length ≤ n →
      (removeItemTag s).length ≤ s.length := by
  intro n
  induction n with
  | zero =>
    intro s hs
    have : s = [] := List.length_eq_zero.mp (Nat.le_zero.mp hs)
    subst this
    simp [removeItemTag]
  | succ n ih =>
    intro s hs
    match s with
    | [] => simp [removeItemTag]
    | c :: cs =>
      rw [removeItemTag]
      simp only [List.length_cons] at hs
      split
      · next =>
        have h₁ : (removeItemTag (cs.drop 4)).length ≤ (cs.drop 4).length :=
          ih _ (by simp only [List.length_drop]; omega)
        simp only [List.length_drop] at h₁
        simp only [List.length_cons]
        omega
      · next =>
        have h₁ := ih cs (by omega)
        simp only [List.length_cons]
        omega

/-- If the tag occurs in a string, removing its occurrences shortens the
string by at least the tag's length. -/
theorem removeItemTag_length_of_infix :
    ∀ (n : ℕ) (s : List Char), s.length ≤ n → itemTag <:+: s →
      (removeItemTag s).length + 5 ≤ s.length := by
  intro n
  induction n with
  | zero =>
    intro s hs hinf
    have : s = [] := List.length_eq_zero.mp (Nat.le_zero.mp hs)
    subst this
    exact absurd (List.infix_nil.mp hinf) (by decide)
  | succ n ih =>
    intro s hs hinf
    match s with
    | [] => exact absurd (List.infix_nil.mp hinf) (by decide)
    | c :: cs =>
      rw [removeItemTag]
      split
      · next hpre =>
        have hiff := List.isPrefixOf_iff_prefix.mp hpre
        have h5 : 5 ≤ (c :: cs).length :=
          (by decide : itemTag.length = 5) ▸ hiff.length_le
        have hle := removeItemTag_length_le (cs.drop 4).length _ le_rfl
        simp only [List.length_drop, List.length_cons] at h5 hle ⊢
        omega
      · next hpre =>
        rcases hinf with ⟨sp, tp, hst⟩
        match sp, hst with
        | [], hst =>
          have hiff := List.isPrefixOf_iff_prefix.mpr ⟨tp, by simpa using hst⟩
          exact absurd hiff hpre
        | a :: sp, hst =>
          have hinf₂ : itemTag <:+: cs :=
            ⟨sp, tp, by simpa [List.append_assoc] using congrArg List.tail hst⟩
          simp only [List.length_cons] at hs ⊢
          have := ih cs (by omega) hinf₂
          omega

/-- `removeItemTag` consumes a leading tag and continues after it. -/
theorem removeItemTag_tag_append (t : List Char) :
    removeItemTag (itemTag ++ t) = removeItemTag t := by
  show removeItemTag ('i' :: 't' :: 'e' :: 'm' :: '_' :: t) = removeItemTag t
  rw [removeItemTag]
  have hpre : itemTag.isPrefixOf ('i' :: 't' :: 'e' :: 'm' :: '_' :: t) =
      true := List.isPrefixOf_iff_prefix.mpr ⟨t, rfl⟩
  rw [if_pos hpre]
  rfl

/-- An item identifier containing `"item_"` anywhere is changed by the
prefixing-then-stripping round trip: `col.replace("item_", "")` removes
**all** occurrences, so the output column name is strictly shorter than
the original identifier. -/
theorem renameColumn_changes (v : String) (h : itemTag <:+: v.data) :
    renameColumn (prefixItem v) ≠ v := by
  have h5 : 5 ≤ v.data.length :=
    (by decide : itemTag.length = 5) ▸ h.length_le
  have hlt : (removeItemTag v.data).length + 5 ≤ v.data.length :=
    removeItemTag_length_of_infix v.data.length _ le_rfl h
  rw [prefixItem]
  split
  · rw [renameColumn]
    split
    · next hid => exact absurd h5 (by rw [hid]; decide)
    · next =>
      intro heq
      have hdata : removeItemTag v.data = v.data := congrArg String.data heq
      rw [hdata] at hlt
      omega
  · rw [renameColumn]
    split
    · next hid =>
      exfalso
      have hlen := congrArg (fun s => s.data.length) hid
      simp [String.data_append] at hlen
    · next =>
      intro heq
      have hdata : removeItemTag (itemTag ++ v.data) = v.data := by
        have := congrArg String.data heq
        simpa [String.data_append] using this
      rw [removeItemTag_tag_append] at hdata
      rw [hdata] at hlt
      omega

/-- Claim C10: the output columns of `long2resp` are the surviving
prefixed item names with **every** occurrence of `"item_"` removed
(`col.replace("item_", "")`), so any original item identifier containing
`"item_"` anywhere differs from its output column name, while the `id`
column is never renamed. -/
theorem c10_item_tag_removed_everywhere (df : List LongRow) (thr : Option ℚ)
    (agg : String) (w : WideMatrix)
    (hok : long2resp df thr agg = Except.ok w) :
    w.cols = (outputItemCols df thr).map renameColumn ∧
    (∀ it ∈ outputItemCols df thr, ∃ r ∈ df, it = prefixItem r.item) ∧
    (∀ v : String, itemTag <:+: v.data → renameColumn (prefixItem v) ≠ v) ∧
    renameColumn "id" = "id" := by
  obtain ⟨-, rfl⟩ := long2resp_ok_fields df thr agg w hok
  refine ⟨rfl, ?_, fun v hv => renameColumn_changes v hv, rfl⟩
  intro it hit
  rw [outputItemCols] at hit
  rcases List.mem_map.mp (List.mem_dedup.mp hit) with ⟨r, hr, rfl⟩
  have hrP : r ∈ withPrefixedItems df := by
    rcases thr with - | t
    · exact hr
    · exact (List.mem_filter.mp hr).1
  rcases List.mem_map.mp hrP with ⟨r₀, hr₀, rfl⟩
  exact ⟨r₀, hr₀, rfl⟩

/-- Witness for `c10_item_tag_removed_everywhere`: the item
`"my_item_x"` (containing `"item_"` mid-string) becomes column `"my_x"`,
differing from the original identifier, while `"id"` is untouched. -/
theorem c10_item_tag_removed_everywhere_witness :
    ∃ w, long2resp [⟨1, "my_item_x", some 1⟩] none "first" = Except.ok w ∧
      w.cols = ["my_x"] ∧
      renameColumn (prefixItem "my_item_x") ≠ "my_item_x" ∧
      renameColumn "id" = "id" := by
  obtain ⟨-, -, h3, h4⟩ :=
    c10_item_tag_removed_everywhere [⟨1, "my_item_x", some 1⟩] none "first"
      _ rfl
  exact ⟨_, rfl, by with_unfolding_all decide,
    h3 "my_item_x" (by with_unfolding_all decide), h4⟩

/-! ### C5 — cell-count round trip -/

/-- A `(id, item)` group is empty exactly when the pair never occurs. -/
theorem groupResps_eq_nil_iff (df : List LongRow) (i : ℕ) (it : String) :
    groupResps df i it = [] ↔
      (i, it) ∉ df.map (fun r => (r.id, r.item)) := by
  rw [groupResps, List.map_eq_nil_iff, List.filter_eq_nil_iff]
  constructor
  · intro h hmem
    rcases List.mem_map.mp hmem with ⟨r, hr, hpair⟩
    rcases Prod.ext_iff.mp hpair with ⟨h1, h2⟩
    exact h r hr (decide_eq_true ⟨h1, h2⟩)
  · intro hnot r hr hp
    rcases of_decide_eq_true hp with ⟨h1, h2⟩
    exact hnot (List.mem_map.mpr ⟨r, hr, by rw [h1, h2]⟩)

/-- A nonempty all-non-missing group keeps at least one value. -/
theorem filterMap_id_ne_nil {xs : List (Option ℚ)} (hne : xs ≠ [])
    (hall : ∀ x ∈ xs, x.isSome = true) : xs.filterMap id ≠ [] := by
  match xs, hne with
  | x :: rest, _ =>
    have hx := hall x (List.mem_cons_self x rest)
    match x, hx with
    | some y, _ => simp

/-- Inserting into the sorted list adds one element. -/
theorem insertRat_length (x : ℚ) (l : List ℚ) :
    (insertRat x l).length = l.length + 1 := by
  induction l with
  | nil => rfl
  | cons y ys ih =>
    rw [insertRat]
    split
    · rfl
    · simp only [List.length_cons, ih]

/-- Sorting preserves the number of values. -/
theorem sortRats_length (l : List ℚ) : (sortRats l).length = l.length := by
  induction l with
  | nil => rfl
  | cons y ys ih =>
    show (insertRat y (sortRats ys)).length = ys.length + 1
    rw [insertRat_length, ih]

/-- The fold inside `mode_fn` never falls back to `none` once seeded. -/
theorem aggMode_foldl_isSome (v : List ℚ) (l : List ℚ) (b : ℚ) :
    (l.foldl (fun best c =>
      match best with
      | none => some c
      | some b => if v.count b < v.count c then some c else some b)
      (some b)).isSome = true := by
  induction l generalizing b with
  | nil => rfl
  | cons c cs ih =>
    show (cs.foldl _ (if v.count b < v.count c then some c else some b)).isSome
      = true
    split
    · exact ih c
    · exact ih b

/-- Every valid strategy yields a value on a nonempty all-non-missing
group. -/
theorem aggregateCell_isSome (agg : String)
    (hv : agg = "mode" ∨ agg = "mean" ∨ agg = "median" ∨ agg = "first")
    (xs : List (Option ℚ)) (hne : xs ≠ [])
    (hall : ∀ x ∈ xs, x.isSome = true) :
    (aggregateCell agg xs).isSome = true := by
  have hfm : xs.filterMap id ≠ [] := filterMap_id_ne_nil hne hall
  rcases hv with rfl | rfl | rfl | rfl
  · rw [aggregateCell, if_pos rfl, aggMode]
    have hd : (xs.filterMap id).dedup ≠ [] :=
      fun h => hfm ((List.dedup_eq_nil _).mp h)
    match h : (xs.filterMap id).dedup, hd with
    | c :: cs, _ =>
      show (cs.foldl _ (some c)).isSome = true
      exact aggMode_foldl_isSome _ cs c
  · rw [aggregateCell]
    rw [if_neg (by decide), if_pos rfl, aggMean]
    simp only [List.isEmpty_iff]
    rw [if_neg hfm]
    rfl
  · rw [aggregateCell]
    rw [if_neg (by decide), if_neg (by decide), if_pos rfl, aggMedian]
    have hlen : (sortRats (xs.filterMap id)).length ≠ 0 := by
      rw [sortRats_length]
      exact fun h => hfm (List.length_eq_zero.mp h)
    rw [if_neg hlen]
    split <;> rfl
  · rw [aggregateCell]
    rw [if_neg (by decide), if_neg (by decide), if_neg (by decide),
      if_pos rfl]
    match xs, hne with
    | x :: rest, _ =>
      have hx := hall x (List.mem_cons_self x rest)
      match x, hx with
      | some y, _ => rfl

/-- Every valid strategy yields a missing cell on an empty group. -/
theorem aggregateCell_nil (agg : String) : aggregateCell agg [] = none := by
  rw [aggregateCell]
  split
  · rfl
  · split
    · rfl
    · split
      · rfl
      · split <;> rfl

/-- Counting members of a duplicate-free sublist by a scan over a
duplicate-free superlist recovers the sublist's length. -/
theorem countP_mem_eq_length {β : Type} [DecidableEq β] (C S : List β)
    (hC : C.Nodup) (hS : S.Nodup) (hsub : ∀ b ∈ S, b ∈ C) :
    C.countP (fun b => decide (b ∈ S)) = S.length := by
  rw [List.countP_eq_length_filter]
  refine List.Perm.length_eq ?_
  rw [List.perm_ext_iff_of_nodup (hC.filter _) hS]
  intro b
  simp only [List.mem_filter, decide_eq_true_eq]
  exact ⟨fun h => h.2, fun h => ⟨hsub b h, h⟩⟩

/-- Summing, over the distinct ids, the number of columns whose pair
occurs in a duplicate-free pair list recovers the pair count. -/
theorem sum_countP_pairs {A B : Type} [DecidableEq A] [DecidableEq B] :
    ∀ (I : List A) (C : List B) (P : List (A × B)), I.Nodup → C.Nodup →
      P.Nodup → (∀ p ∈ P, p.1 ∈ I) → (∀ p ∈ P, p.2 ∈ C) →
      (I.map (fun i => C.countP (fun b => decide ((i, b) ∈ P)))).sum =
        P.length := by
  intro I
  induction I with
  | nil =>
    intro C P _ _ _ hI _
    match P, hI with
    | [], _ => rfl
    | p :: _, hI => exact absurd (hI p (List.mem_cons_self _ _)) (by simp)
  | cons i I ih =>
    intro C P hInd hC hP hI hCc
    have hhead : C.countP (fun b => decide ((i, b) ∈ P)) =
        (P.filter (fun p => decide (p.1 = i))).length := by
      have hS : ((P.filter (fun p => decide (p.1 = i))).map Prod.snd).Nodup := by
        refine (hP.filter _).map_on ?_
        intro x hx y hy hxy
        have hxi := of_decide_eq_true (List.mem_filter.mp hx).2
        have hyi := of_decide_eq_true (List.mem_filter.mp hy).2
        exact Prod.ext (hxi.trans hyi.symm) hxy
      have hcongr : C.countP (fun b => decide ((i, b) ∈ P)) =
          C.countP (fun b =>
            decide (b ∈ (P.filter (fun p => decide (p.1 = i))).map
              Prod.snd)) := by
        refine List.countP_congr ?_
        intro b _
        simp only [decide_eq_true_eq]
        constructor
        · intro hmem
          exact List.mem_map.mpr
            ⟨(i, b), List.mem_filter.mpr ⟨hmem, by simp⟩, rfl⟩
        · intro hmem
          rcases List.mem_map.mp hmem with ⟨p, hp, rfl⟩
          rcases List.mem_filter.mp hp with ⟨hpP, hpi⟩
          have : p = (i, p.2) := Prod.ext (of_decide_eq_true hpi) rfl
          exact this ▸ hpP
      rw [hcongr]
      have hmain := countP_mem_eq_length C _ hC hS (by
        intro b hb
        rcases List.mem_map.mp hb with ⟨p, hp, rfl⟩
        exact hCc p (List.mem_filter.mp hp).1)
      rw [hmain, List.length_map]
    have htail : (I.map (fun i' => C.countP (fun b =>
        decide ((i', b) ∈ P)))).sum =
        (I.map (fun i' => C.countP (fun b =>
          decide ((i', b) ∈ P.filter (fun p => !decide (p.1 = i)))))).sum := by
      refine congrArg List.sum (List.map_congr_left ?_)
      intro i' hi'
      refine List.countP_congr ?_
      intro b _
      have hne : i' ≠ i := fun h => (List.nodup_cons.mp hInd).1 (h ▸ hi')
      simp only [decide_eq_true_eq]
      constructor
      · intro hmem
        exact List.mem_filter.mpr ⟨hmem, by simp [hne]⟩
      · intro hmem
        exact (List.mem_filter.mp hmem).1
    have hP₂ : ∀ p ∈ P.filter (fun p => !decide (p.1 = i)), p.1 ∈ I := by
      intro p hp
      rcases List.mem_filter.mp hp with ⟨hpP, hpi⟩
      rcases List.mem_cons.mp (hI p hpP) with h | h
      · simp [h] at hpi
      · exact h
    have hsplit : P.length =
        (P.filter (fun p => decide (p.1 = i))).length +
          (P.filter (fun p => !decide (p.1 = i))).length := by
      rw [← List.length_append]
      exact (List.filter_append_perm _ P).length_eq.symm
    simp only [List.map_cons, List.sum_cons]
    rw [hhead, htail, ih C _ (List.nodup_cons.mp hInd).2 hC (hP.filter _)
      hP₂ (fun p hp => hCc p (List.mem_filter.mp hp).1)]
    omega

/-- Claim C5, counterexample: the frame
`[(1,"x",2), (1,"item_x",3), (2,"y",missing)]` has no duplicate
`(id, item)` pair and no density filtering (`threshold = None`), yet the
wide matrix holds 1 non-missing cell instead of 3: the `"item_"`
prefixing merges the items `"x"` and `"item_x"` into one aggregated cell,
and the missing response of id 2 yields a missing cell. -/
theorem c5_cell_count_refuted :
    ∃ w, long2resp
        [⟨1, "x", some 2⟩, ⟨1, "item_x", some 3⟩, ⟨2, "y", none⟩]
        none "mean" = Except.ok w ∧
      (([⟨1, "x", some 2⟩, ⟨1, "item_x", some 3⟩, ⟨2, "y", none⟩] :
          List LongRow).map (fun r => (r.id, r.item))).Nodup ∧
      nonMissingCount w = 1 ∧
      ([⟨1, "x", some 2⟩, ⟨1, "item_x", some 3⟩, ⟨2, "y", none⟩] :
        List LongRow).length = 3 :=
  ⟨_, rfl, by with_unfolding_all decide, by with_unfolding_all decide,
    rfl⟩

/-- Claim C5, amended: for a long frame whose responses are all
non-missing and whose rows have pairwise distinct `(id, prefixed item)`
pairs (so the `"item_"` prefixing merges no items), with no id dropped by
the density threshold, the wide matrix holds exactly one non-missing cell
per long row. -/
theorem c5_nonmissing_cells_eq_rows (df : List LongRow) (thr : Option ℚ)
    (agg : String) (w : WideMatrix)
    (hok : long2resp df thr agg = Except.ok w)
    (hresp : ∀ r ∈ df, r.resp.isSome = true)
    (hnodup : ((withPrefixedItems df).map (fun r => (r.id, r.item))).Nodup)
    (hkeep : densityFilter thr (withPrefixedItems df) =
      withPrefixedItems df) :
    nonMissingCount w = df.length := by
  obtain ⟨hv, rfl⟩ := long2resp_ok_fields df thr agg w hok
  have hrespP : ∀ r ∈ withPrefixedItems df, r.resp.isSome = true := by
    intro r hr
    rcases List.mem_map.mp hr with ⟨r₀, hr₀, rfl⟩
    exact hresp r₀ hr₀
  have hcell : ∀ (i : ℕ) (it : String),
      (aggregateCell agg
          (groupResps (withPrefixedItems df) i it)).isSome =
        decide ((i, it) ∈
          (withPrefixedItems df).map (fun r => (r.id, r.item))) := by
    intro i it
    by_cases hmem : (i, it) ∈
        (withPrefixedItems df).map (fun r => (r.id, r.item))
    · have hne : groupResps (withPrefixedItems df) i it ≠ [] :=
        fun h => (groupResps_eq_nil_iff _ i it).mp h hmem
      have hall : ∀ x ∈ groupResps (withPrefixedItems df) i it,
          x.isSome = true := by
        intro x hx
        rcases List.mem_map.mp hx with ⟨r, hr, rfl⟩
        exact hrespP r (List.mem_filter.mp hr).1
      rw [aggregateCell_isSome agg hv _ hne hall, decide_eq_true hmem]
    · rw [(groupResps_eq_nil_iff _ i it).mpr hmem, aggregateCell_nil]
      simp [hmem]
  show (((outputIds df thr).map (fun i => (outputItemCols df thr).map
      (fun it => aggregateCell agg (groupResps
        (densityFilter thr (withPrefixedItems df)) i it)))).map
      (fun row => row.countP (fun c => c.isSome))).sum = df.length
  rw [outputIds, outputItemCols, hkeep]
  rw [List.map_map]
  simp only [Function.comp_def, List.countP_map]
  have hcongr :
      (((withPrefixedItems df).map (fun r => r.id)).dedup.map (fun i =>
        ((withPrefixedItems df).map (fun r => r.item)).dedup.countP
          (fun it => (aggregateCell agg
            (groupResps (withPrefixedItems df) i it)).isSome))) =
      (((withPrefixedItems df).map (fun r => r.id)).dedup.map (fun i =>
        ((withPrefixedItems df).map (fun r => r.item)).dedup.countP
          (fun it => decide ((i, it) ∈
            (withPrefixedItems df).map (fun r => (r.id, r.item)))))) :=
    List.map_congr_left (fun i _ =>
      List.countP_congr (fun it _ => by rw [hcell i it]))
  rw [hcongr]
  have hsum := sum_countP_pairs
    (((withPrefixedItems df).map (fun r => r.id)).dedup)
    (((withPrefixedItems df).map (fun r => r.item)).dedup)
    ((withPrefixedItems df).map (fun r => (r.id, r.item)))
    (List.nodup_dedup _) (List.nodup_dedup _) hnodup
    (by
      intro p hp
      rcases List.mem_map.mp hp with ⟨r, hr, rfl⟩
      exact List.mem_dedup.mpr (List.mem_map.mpr ⟨r, hr, rfl⟩))
    (by
      intro p hp
      rcases List.mem_map.mp hp with ⟨r, hr, rfl⟩
      exact List.mem_dedup.mpr (List.mem_map.mpr ⟨r, hr, rfl⟩))
  rw [hsum, List.length_map, withPrefixedItems, List.length_map]

/-- Witness for `c5_nonmissing_cells_eq_rows` on a three-row frame with
two ids and two items. -/
theorem c5_nonmissing_cells_eq_rows_witness :
    ∃ w, long2resp
        [⟨1, "A", some 1⟩, ⟨1, "B", some 0⟩, ⟨2, "A", some 2⟩]
        none "mean" = Except.ok w ∧ nonMissingCount w = 3 :=
  ⟨_, rfl, c5_nonmissing_cells_eq_rows
    [⟨1, "A", some 1⟩, ⟨1, "B", some 0⟩, ⟨2, "A", some 2⟩]
    none "mean" _ rfl (by with_unfolding_all decide)
    (by with_unfolding_all decide) rfl⟩

/-! ### C7 — base rows survive the metadata merge -/

/-- Rows surviving `drop_duplicates` come from the input frame. -/
theorem dropDupNames_subset {α : Type} (seen : List String)
    (l : List (ListingRow α)) : ∀ r ∈ dropDupNames seen l, r ∈ l := by
  induction l generalizing seen with
  | nil => intro r hr; simp [dropDupNames] at hr
  | cons a l ih =>
    intro r hr
    rw [dropDupNames] at hr
    by_cases ha : a.name ∈ seen
    · exact List.mem_cons_of_mem a (ih seen r (by simpa [ha] using hr))
    · rw [if_neg ha] at hr
      rcases List.mem_cons.mp hr with h | h
      · exact h ▸ List.mem_cons_self a l
      · exact List.mem_cons_of_mem a (ih _ r h)

/-- `drop_duplicates` keeps some row for every name that occurs in the
frame and is not among the already-seen names. -/
theorem dropDupNames_covers {α : Type} (seen : List String)
    (l : List (ListingRow α)) (n : String) (hn : n ∉ seen)
    (h : ∃ r ∈ l, r.name = n) :
    ∃ r ∈ dropDupNames seen l, r.name = n := by
  induction l generalizing seen with
  | nil => simp at h
  | cons a l ih =>
    rw [dropDupNames]
    by_cases ha : a.name ∈ seen
    · rw [if_pos ha]
      rcases h with ⟨r, hr, hname⟩
      rcases List.mem_cons.mp hr with h | h
      · exact absurd (hname ▸ h ▸ ha) hn
      · exact ih seen hn ⟨r, h, hname⟩
    · rw [if_neg ha]
      by_cases hhead : a.name = n
      · exact ⟨a, List.mem_cons_self _ _, hhead⟩
      · rcases h with ⟨r, hr, hname⟩
        rcases List.mem_cons.mp hr with h | h
        · exact absurd (h ▸ hname) hhead
        · have hn2 : n ∉ a.name :: seen := by
            intro hc
            rcases List.mem_cons.mp hc with hc | hc
            · exact hhead hc.symm
            · exact hn hc
          have ⟨s, hs, hsn⟩ := ih (a.name :: seen) hn2 ⟨r, h, hname⟩
          exact ⟨s, List.mem_cons_of_mem a hs, hsn⟩

/-- Every row of the joined frame whose name has no (case-insensitive)
match in the metadata table carries no metadata payload. -/
theorem joinRows_unmatched_meta_none {α : Type}
    (metadata : List (MetaRow α)) (n : String)
    (hmiss : ∀ m ∈ metadata, m.table.toLower ≠ n.toLower) (n₂ : String)
    (r : ListingRow α) (hr : r ∈ joinRows metadata n₂) (hname : r.name = n) :
    r.meta = none := by
  rw [joinRows] at hr
  by_cases he : (metadata.filter
      (fun m => m.table.toLower = n₂.toLower)).isEmpty
  · rw [if_pos he] at hr
    rcases List.mem_singleton.mp hr with rfl
    rfl
  · rw [if_neg he] at hr
    rcases List.mem_map.mp hr with ⟨m, hm, rfl⟩
    rcases List.mem_filter.mp hm with ⟨hmem, heq⟩
    have : m.table.toLower = n.toLower := by
      simpa [← hname] using of_decide_eq_true heq
    exact absurd this (hmiss m hmem)

/-- Claim C7: every base table name still has a row in the merged listing
even when no metadata source matches it (case-insensitively); the row's
metadata cells are all null, but the row is never dropped. -/
theorem c7_unmatched_base_row_kept {α : Type} (base : List String)
    (metadata : List (MetaRow α)) (n : String) (hbase : n ∈ base)
    (hmiss : ∀ m ∈ metadata, m.table.toLower ≠ n.toLower) :
    ∃ r ∈ mergeMetadata base metadata, r.name = n ∧ r.meta = none := by
  rw [mergeMetadata]
  by_cases he : metadata.isEmpty
  · rw [if_pos he]
    exact ⟨⟨n, none⟩, List.mem_map.mpr ⟨n, hbase, rfl⟩, rfl, rfl⟩
  · rw [if_neg he]
    have hsome : ∃ r ∈ base.flatMap (joinRows metadata), r.name = n := by
      have hmem : ∀ r ∈ joinRows metadata n, r.name = n := by
        intro r hr
        rw [joinRows] at hr
        by_cases h0 : (metadata.filter
            (fun m => m.table.toLower = n.toLower)).isEmpty
        · rw [if_pos h0] at hr
          rcases List.mem_singleton.mp hr with rfl; rfl
        · rw [if_neg h0] at hr
          rcases List.mem_map.mp hr with ⟨m, _, rfl⟩; rfl
      have hne : joinRows metadata n ≠ [] := by
        rw [joinRows]
        by_cases h0 : (metadata.filter
            (fun m => m.table.toLower = n.toLower)).isEmpty
        · simp [h0]
        · rw [if_neg h0]
          intro hmap
          exact h0 (by simpa [List.isEmpty_iff] using
            List.map_eq_nil_iff.mp hmap)
      rcases List.exists_mem_of_ne_nil _ hne with ⟨r, hr⟩
      exact ⟨r, List.mem_flatMap_of_mem hbase hr, hmem r hr⟩
    rcases dropDupNames_covers [] _ n (by simp) hsome with ⟨r, hr, hname⟩
    rcases List.mem_flatMap.mp (dropDupNames_subset [] _ r hr)
      with ⟨n₂, _, hr₂⟩
    exact ⟨r, hr, hname,
      joinRows_unmatched_meta_none metadata n hmiss n₂ r hr₂ hname⟩

/-- Witness for `c7_unmatched_base_row_kept`: base names `["A", "B"]`,
one metadata row for table `"b"`; the unmatched name `"A"` keeps an
all-null row. -/
theorem c7_unmatched_base_row_kept_witness :
    ∃ r ∈ mergeMetadata ["A", "B"] [(⟨"b", 0⟩ : MetaRow ℕ)],
      r.name = "A" ∧ r.meta = none :=
  c7_unmatched_base_row_kept ["A", "B"] [⟨"b", 0⟩] "A"
    (by decide) (by with_unfolding_all decide)

/-- Witness for `c9_dedup_deterministic` on a concrete three-row frame
with one duplicated `(id, item)` pair. -/
theorem c9_dedup_deterministic_witness :
    dedupIndices (fun k => k + 3)
        [⟨1, "a", some 1⟩, ⟨1, "a", some 2⟩, ⟨2, "b", some 3⟩] =
      dedupIndices (fun k => k + 3)
        [⟨1, "a", some 1⟩, ⟨1, "a", some 2⟩, ⟨2, "b", some 3⟩] ∧
    dedupStep (fun k => k + 3)
        [⟨1, "a", some 1⟩, ⟨1, "a", some 2⟩, ⟨2, "b", some 3⟩] =
      dedupStep (fun k => k + 3)
        [⟨1, "a", some 1⟩, ⟨1, "a", some 2⟩, ⟨2, "b", some 3⟩] :=
  c9_dedup_deterministic (fun k => k + 3)
    [⟨1, "a", some 1⟩, ⟨1, "a", some 2⟩, ⟨2, "b", some 3⟩]
    [⟨1, "a", some 1⟩, ⟨1, "a", some 2⟩, ⟨2, "b", some 3⟩] rfl

end IRW
